import Mathlib

/-!
Verification of the slot-engine outcome-generation and evaluation core.

The development shallowly embeds the core of the engine:
the seeded random number source (Mulberry32), the payline evaluator,
the reel controller (winning / losing position generation), and the
engine orchestration (spin, executeSpin, simulate) together with the
mutable game state.  Machine integers of the host language are modelled
as naturals with explicit reductions modulo 2^32 where the host coerces
to 32-bit values; host floats holding probabilities, credits and payout
multipliers are modelled as rationals (all arithmetic the engine performs
on them is exact in the float range that matters); randomness is modelled
as an explicit stream of rationals together with a cursor index, consumed
in exactly the order the source draws from its RNG instance.
-/

/-- Modulus of 32-bit values: the host's bitwise operators coerce to 32 bits. -/
def U32 : ℕ := 4294967296

/-- Seeded random number generator state.  The source stores a single
numeric seed field; the constructor coerces the given seed with an
unsigned 32-bit shift, but later updates add the Mulberry32 increment
without truncation (the truncation happens inside the bitwise pipeline
of each draw). -/
structure SeededRandom where
  seed : ℕ
deriving Repr, DecidableEq

/-- Constructor of the seeded RNG: `this.seed = seed >>> 0`. -/
def SeededRandom.make (seed : ℕ) : SeededRandom :=
  ⟨seed % U32⟩

/-- Numerator of one Mulberry32 output for a given (untruncated) seed value.
Faithful to the source draw:
  t = Math.imul(t ^ (t >>> 15), t | 1);
  t ^= t + Math.imul(t ^ (t >>> 7), t | 61);
  return ((t ^ (t >>> 14)) >>> 0) / 4294967296;
where every bitwise operator first coerces its operand to 32 bits, and
Math.imul keeps the low 32 bits of the product. -/
def mulberry32Num (seed1 : ℕ) : ℕ :=
  let t0 := seed1 % U32
  let m1 := ((t0 ^^^ (t0 >>> 15)) * (t0 ||| 1)) % U32
  let m2 := ((m1 ^^^ (m1 >>> 7)) * (m1 ||| 61)) % U32
  let t3 := m1 ^^^ ((m1 + m2) % U32)
  (t3 ^^^ (t3 >>> 14)) % U32

/-- One call of `SeededRandom.next`: advance the stored seed by the
Mulberry32 increment 0x6d2b79f5 and produce the normalized output in
[0, 1). -/
def SeededRandom.next (r : SeededRandom) : ℚ × SeededRandom :=
  let seed1 := r.seed + 1831565813
  ((mulberry32Num seed1 : ℚ) / (U32 : ℚ), ⟨seed1⟩)

/-- Value returned by the n-th call of `next` (0-based) on an instance. -/
def SeededRandom.draw (r : SeededRandom) : ℕ → ℚ
  | 0 => r.next.1
  | n + 1 => r.next.2.draw n

/-- Symbol identifiers are strings. -/
abbrev SymId := String

/-- A grid of symbols (the evaluator is documented to expect 3 rows of
5 columns, but the type itself carries arbitrary row lists, as in the
source). -/
abbrev SymMatrix := List (List SymId)

/-- A symbol extracted along a payline together with its coordinates.
The symbol is optional because the host language yields `undefined`
when a payline coordinate reads outside the row bounds of the grid. -/
structure SymbolPosition where
  symbolId : Option SymId
  row : ℕ
  col : ℕ
deriving Repr, DecidableEq

/-- A matched line in a spin result. -/
structure HitLine where
  paylineIndex : ℕ
  pattern : String
  multiplier : ℚ
  symbols : List SymbolPosition
deriving Repr, DecidableEq

/-- Result of evaluating one grid. -/
structure SpinResult where
  matrix : SymMatrix
  win : Bool
  payout : ℚ
  hitLines : List HitLine
deriving Repr, DecidableEq

/-- Split a character list at every dash, keeping empty segments, as the
host's string split method does. -/
def splitDashChars : List Char → List (List Char)
  | [] => [[]]
  | c :: rest =>
    match splitDashChars rest with
    | g :: gs => if c = '-' then [] :: g :: gs else (c :: g) :: gs
    | [] => [[c]]

/-- Split a pattern string on the dash character (structural version of
the host's split, identical on every input: all separators split, empty
segments preserved). -/
def splitPattern (s : String) : List String :=
  (splitDashChars s.data).map (fun cs => String.mk cs)

namespace PaylineEvaluator

/-- Read one grid cell: `matrix[row][col]`, `none` when the column is out
of bounds of the row (the host yields `undefined` there). -/
def getCell (m : SymMatrix) (row col : ℕ) : Option SymId :=
  (m.getD row []).get? col

/-- Extract the symbols along a payline.  A payline is stored flat as
[row, col, row, col, ...]; the source walks it two entries at a time. -/
def extractLine (m : SymMatrix) : List ℕ → List SymbolPosition
  | row :: col :: rest => ⟨getCell m row col, row, col⟩ :: extractLine m rest
  | _ => []

/-- Pattern match test: the pattern splits on the dash character; it must
have exactly as many tokens as there are extracted symbols, and each
token must equal the symbol at its position or be the wildcard star. -/
def matchesPattern (symbolIds : List (Option SymId)) (pattern : String) : Bool :=
  let patternParts := splitPattern pattern
  decide (patternParts.length = symbolIds.length) &&
    (patternParts.zip symbolIds).all (fun pc => pc.1 == "*" || some pc.1 == pc.2)

/-- Symbols that contribute to a match: those whose pattern token is not
the wildcard (positions beyond the token list also count, as in the
source where an out-of-bounds token read is not the wildcard). -/
def getMatchingSymbols (symbols : List SymbolPosition) (pattern : String) :
    List SymbolPosition :=
  let patternParts := splitPattern pattern
  ((symbols.enum.filter (fun p => !(patternParts.get? p.1 == some "*"))).map (·.2))

/-- Check one payline against the payout table: the first entry (in table
order) whose pattern matches produces the hit line; otherwise none. -/
def checkPayline (payoutTable : List (String × ℚ)) (paylineIndex : ℕ)
    (symbols : List SymbolPosition) : Option HitLine :=
  let symbolIds := symbols.map (·.symbolId)
  match payoutTable.find? (fun e => matchesPattern symbolIds e.1) with
  | some e => some ⟨paylineIndex, e.1, e.2, getMatchingSymbols symbols e.1⟩
  | none => none

/-- Evaluate a grid: collect the hit lines over all paylines, win when at
least one line hit, payout is the sum of the multipliers of the hits. -/
def evaluate (paylines : List (List ℕ)) (payoutTable : List (String × ℚ))
    (m : SymMatrix) : SpinResult :=
  let hitLines :=
    paylines.enum.filterMap (fun p => checkPayline payoutTable p.1 (extractLine m p.2))
  { matrix := m
    win := decide (0 < hitLines.length)
    payout := hitLines.foldl (fun s l => s + l.multiplier) 0
    hitLines := hitLines }

/-- Whether a grid has any winning combination. -/
def hasWin (paylines : List (List ℕ)) (payoutTable : List (String × ℚ))
    (m : SymMatrix) : Bool :=
  (evaluate paylines payoutTable m).win

end PaylineEvaluator

/-- A reel is modelled by its strip: the ordered cyclic list of symbol
identifiers (the animation-related fields of the source reel object are
out of the core). -/
abbrev ReelStrip := List SymId

/-- Cyclic read of a strip: `strip[(i % strip.length)]`.  The engine only
ever reads strips that its validator has checked to be non-empty, so the
default value of the total model is never produced in the theorems
below. -/
def stripAt (strip : ReelStrip) (i : ℕ) : SymId :=
  strip.getD (i % strip.length) ""

/-- Floor of a host float in [0, 1) scaled by a length:
`Math.floor(rng.next() * n)`. -/
def floorScale (r : ℚ) (n : ℕ) : ℕ :=
  (Int.floor (r * (n : ℚ))).toNat

namespace ReelController

/-- Convert reel stop positions to the 3-row, 5-column matrix of visible
symbols: `matrix[row][reelIndex] = strip[(position + row) % strip.length]`
for row 0..2 and reelIndex 0..4. -/
def positionsToMatrix (reels : List ReelStrip) (positions : List ℕ) : SymMatrix :=
  (List.range 3).map (fun row =>
    (List.range 5).map (fun reelIndex =>
      stripAt (reels.getD reelIndex []) (positions.getD reelIndex 0 + row)))

/-- Cumulative-weight walk of the weighted pattern selection: subtract
each weight from the drawn value and return the first entry that brings
it to zero or below. -/
def walkWeights : ℚ → List ((String × ℚ) × ℚ) → Option (String × ℚ)
  | _, [] => none
  | random, pw :: rest =>
    if random - pw.2 ≤ 0 then some pw.1 else walkWeights (random - pw.2) rest

/-- Weighted selection of a payout-table entry.  Each entry's weight is
1000 divided by its payout so that lower payouts are drawn more often;
one RNG value scaled by the total weight drives the cumulative walk, and
the last entry is the fallback. -/
def selectWeightedPattern (rng : ℕ → ℚ) (k : ℕ) (patterns : List (String × ℚ)) :
    (String × ℚ) × ℕ :=
  let weights := patterns.map (fun p => 1000 / p.2)
  let totalWeight := weights.foldl (fun s w => s + w) 0
  let random := rng k * totalWeight
  ((walkWeights random (patterns.zip weights)).getD (patterns.getLastD ("", 0)), k + 1)

/-- Per-reel position choice of `createWinningMatrix`, walking the reel
indices 0..4 and threading the RNG cursor.  For a concrete token the
strip indices holding that symbol are collected and one is drawn at
random (position 0 without any draw when the symbol is absent); for the
wildcard token any strip position is drawn; a missing token (pattern
shorter than the reel count) behaves like an absent concrete symbol. -/
def createWinningGo (rng : ℕ → ℚ) (reels : List ReelStrip) (symbols : List String) :
    List ℕ → ℕ → List ℕ × ℕ
  | [], k => ([], k)
  | reelIndex :: rest, k =>
    let strip := reels.getD reelIndex []
    match symbols.get? reelIndex with
    | some requiredSymbol =>
      if requiredSymbol = "*" then
        let position := floorScale (rng k) strip.length
        let next := createWinningGo rng reels symbols rest (k + 1)
        (position :: next.1, next.2)
      else
        let symbolIndices := (List.range strip.length).filter
          (fun i => strip.getD i "" == requiredSymbol)
        if 0 < symbolIndices.length then
          let randomIndex := floorScale (rng k) symbolIndices.length
          let position := symbolIndices.getD randomIndex 0
          let next := createWinningGo rng reels symbols rest (k + 1)
          (position :: next.1, next.2)
        else
          let next := createWinningGo rng reels symbols rest k
          (0 :: next.1, next.2)
    | none =>
      let next := createWinningGo rng reels symbols rest k
      (0 :: next.1, next.2)

/-- Reel positions realizing a winning pattern: split the pattern on
dashes and choose a stop position for each of the 5 reels. -/
def createWinningMatrix (rng : ℕ → ℚ) (k : ℕ) (reels : List ReelStrip)
    (pattern : String) : List ℕ × ℕ :=
  createWinningGo rng reels (splitPattern pattern) (List.range 5) k

/-- Positions for a winning spin: select a pattern by weighted choice,
then position the reels to create it. -/
def generateWinningPositions (rng : ℕ → ℚ) (k : ℕ)
    (payoutTable : List (String × ℚ)) (reels : List ReelStrip) : List ℕ × ℕ :=
  let sel := selectWeightedPattern rng k payoutTable
  createWinningMatrix rng sel.2 reels sel.1.1

/-- One attempt of the losing-position search: draw one uniform stop
position per reel, in reel order, threading the RNG cursor. -/
def drawPositions (rng : ℕ → ℚ) : ℕ → List ReelStrip → List ℕ × ℕ
  | k, [] => ([], k)
  | k, reel :: rest =>
    let p := floorScale (rng k) reel.length
    let next := drawPositions rng (k + 1) rest
    (p :: next.1, next.2)

/-- Deterministic fallback of the losing-position search.  For the first
reel the target symbol is the strip's first symbol; for every other reel
the target is the literal sentinel string, and the first strip position
whose middle visible symbol differs from that target is returned
(position 0 when the whole strip matches the target).  The source builds
the 3-symbol visible window and tests its middle element. -/
def forceLosingPositions (reels : List ReelStrip) : List ℕ :=
  reels.enum.map (fun p =>
    let index := p.1
    let strip := p.2
    let targetSymbol := if index = 0 then strip.getD 0 "" else "!DIFFERENT!"
    ((List.range strip.length).find? (fun i =>
        !(decide (0 < index) && (stripAt strip (i + 1) == targetSymbol)))).getD 0)

/-- The bounded retry loop of the losing-position search, with explicit
remaining fuel (the source starts at 100 attempts). -/
def losingLoop (rng : ℕ → ℚ) (paylines : List (List ℕ))
    (payoutTable : List (String × ℚ)) (reels : List ReelStrip) :
    ℕ → ℕ → List ℕ × ℕ
  | 0, k => (forceLosingPositions reels, k)
  | fuel + 1, k =>
    let attempt := drawPositions rng k reels
    if PaylineEvaluator.hasWin paylines payoutTable
        (positionsToMatrix reels attempt.1) then
      losingLoop rng paylines payoutTable reels fuel attempt.2
    else attempt

/-- Maximum number of attempts of the losing-position search. -/
def maxAttempts : ℕ := 100

/-- Positions for a losing spin: up to `maxAttempts` random attempts,
returning the first whose grid does not win, then the deterministic
fallback. -/
def generateLosingPositions (rng : ℕ → ℚ) (k : ℕ) (paylines : List (List ℕ))
    (payoutTable : List (String × ℚ)) (reels : List ReelStrip) : List ℕ × ℕ :=
  losingLoop rng paylines payoutTable reels maxAttempts k

end ReelController

/-- The mutable game/session state. -/
structure GameState where
  credits : ℚ
  lastWin : ℚ
  isSpinning : Bool
  visibleGrid : SymMatrix
  lastSpinResult : Option SpinResult
  totalSpins : ℕ
  totalWins : ℕ
  totalPaidOut : ℚ
deriving Repr, DecidableEq

/-- Fresh game state with the configured initial credits. -/
def GameState.init (initialCredits : ℚ) : GameState :=
  { credits := initialCredits
    lastWin := 0
    isSpinning := false
    visibleGrid := List.replicate 3 (List.replicate 5 "")
    lastSpinResult := none
    totalSpins := 0
    totalWins := 0
    totalPaidOut := 0 }

/-- Deduct the bet amount from credits. -/
def GameState.placeBet (st : GameState) (amount : ℚ) : GameState :=
  { st with credits := st.credits - amount }

/-- Add winnings: credits grow, last win is recorded, and the win
counters advance. -/
def GameState.addWinnings (st : GameState) (amount : ℚ) : GameState :=
  { st with credits := st.credits + amount
            lastWin := amount
            totalWins := st.totalWins + 1
            totalPaidOut := st.totalPaidOut + amount }

/-- Record one spin (total spin counter). -/
def GameState.recordSpin (st : GameState) : GameState :=
  { st with totalSpins := st.totalSpins + 1 }

/-- Whether the player has at least the given amount of credits. -/
def GameState.hasCredits (st : GameState) (amount : ℚ) : Bool :=
  decide (amount ≤ st.credits)

/-- Store the visible grid (the source copies the rows into fresh
arrays; values are immutable here, so the copy is the value itself). -/
def GameState.updateGrid (st : GameState) (m : SymMatrix) : GameState :=
  { st with visibleGrid := m }

/-- The configuration fields the core consumes. -/
structure EngineConfig where
  winningChance : ℚ
  betAmount : ℚ
  paylines : List (List ℕ)
  payoutTable : List (String × ℚ)

/-- Errors `spin` can raise. -/
inductive SpinError where
  | stateError
  | insufficientCredits
  | internalError
deriving Repr, DecidableEq

namespace SlotEngine

/-- The private position-to-matrix conversion of the engine class, used
by `simulate`: for each reel it lists the three symbols *centered* on
the stop position, producing one inner list per reel (5 lists of 3),
unlike the reel controller's 3-row, 5-column conversion used by `spin`. -/
def positionsToMatrix (reels : List ReelStrip) (positions : List ℕ) : SymMatrix :=
  positions.enum.map (fun p =>
    let reel := reels.getD p.1 []
    let pos := p.2
    [stripAt reel (pos + reel.length - 1), stripAt reel pos, stripAt reel (pos + 1)])

/-- Core of one spin after the preconditions have been checked: deduct
the bet and record the spin, run the Bernoulli trial on one RNG draw,
generate winning or losing positions accordingly, evaluate the grid the
reel controller derives from them, store grid and result, pay out
`payout * betAmount` on a win, and clear the spinning flag.  Animation,
audio and event emission are out of the core. -/
def executeSpin (cfg : EngineConfig) (reels : List ReelStrip) (rng : ℕ → ℚ)
    (st : GameState) (k : ℕ) : SpinResult × GameState × ℕ :=
  let st1 := (st.placeBet cfg.betAmount).recordSpin
  let branch :=
    if rng k < cfg.winningChance then
      ReelController.generateWinningPositions rng (k + 1) cfg.payoutTable reels
    else
      ReelController.generateLosingPositions rng (k + 1) cfg.paylines cfg.payoutTable reels
  let m := ReelController.positionsToMatrix reels branch.1
  let result := PaylineEvaluator.evaluate cfg.paylines cfg.payoutTable m
  let st2 := { st1.updateGrid m with lastSpinResult := some result }
  let st3 := if result.win then st2.addWinnings (result.payout * cfg.betAmount) else st2
  (result, { st3 with isSpinning := false }, branch.2)

/-- The `spin` entry point around an arbitrary execution body, modelling
the source's try/catch: reject with a state error while already
spinning, reject with an insufficient-credits error when the bet exceeds
the credits (both before any mutation), otherwise run the body with the
spinning flag raised; an exception from the body is modelled as an
`error` carrying the state at the throw point, and the handler clears
the spinning flag before re-raising. -/
def spinWith {α : Type} (exec : GameState → Except (SpinError × GameState) α)
    (cfg : EngineConfig) (st : GameState) : Except (SpinError × GameState) α :=
  if st.isSpinning then Except.error (SpinError.stateError, st)
  else if !(st.hasCredits cfg.betAmount) then
    Except.error (SpinError.insufficientCredits, st)
  else
    match exec { st with isSpinning := true } with
    | Except.ok r => Except.ok r
    | Except.error e => Except.error (e.1, { e.2 with isSpinning := false })

/-- The engine's `spin`, whose body is `executeSpin` (total in the core
model: the throwing collaborators are the animation/DOM layers). -/
def spin (cfg : EngineConfig) (reels : List ReelStrip) (rng : ℕ → ℚ)
    (st : GameState) (k : ℕ) :
    Except (SpinError × GameState) (SpinResult × GameState × ℕ) :=
  spinWith (fun s => Except.ok (executeSpin cfg reels rng s k)) cfg st

/-- Aggregate statistics the simulation loop accumulates. -/
structure SimStats where
  totalWins : ℕ
  totalPaidOut : ℚ
  payoutDistribution : List (ℚ × ℕ)
  largestWin : ℚ
deriving Repr, DecidableEq

/-- Increment the frequency of one payout amount in the histogram. -/
def bumpDistribution : List (ℚ × ℕ) → ℚ → List (ℚ × ℕ)
  | [], p => [(p, 1)]
  | e :: rest, p =>
    if e.1 = p then (e.1, e.2 + 1) :: rest else e :: bumpDistribution rest p

/-- The spin loop of `simulate`, by remaining iteration count.  Unless
credits are preserved, the loop stops early when credits run out and the
bet is deducted; the spin is always recorded; the Bernoulli trial uses
one RNG draw; on the winning branch the grid is derived with the
engine's own (5-list) conversion and evaluated, statistics are updated
and winnings (the raw payout) are added unless credits are preserved; on
the losing branch the generated positions are discarded. -/
def simLoop (cfg : EngineConfig) (reels : List ReelStrip) (rng : ℕ → ℚ)
    (preserveCredits : Bool) :
    ℕ → GameState → ℕ → SimStats → GameState × ℕ × SimStats
  | 0, st, k, stats => (st, k, stats)
  | n + 1, st, k, stats =>
    if !preserveCredits && !(st.hasCredits cfg.betAmount) then (st, k, stats)
    else
      let st1 := if !preserveCredits then st.placeBet cfg.betAmount else st
      let st2 := st1.recordSpin
      if rng k < cfg.winningChance then
        let gen := ReelController.generateWinningPositions rng (k + 1) cfg.payoutTable reels
        let m := positionsToMatrix reels gen.1
        let result := PaylineEvaluator.evaluate cfg.paylines cfg.payoutTable m
        if result.win then
          let payout := result.payout
          let stats1 : SimStats :=
            { totalWins := stats.totalWins + 1
              totalPaidOut := stats.totalPaidOut + payout
              payoutDistribution := bumpDistribution stats.payoutDistribution payout
              largestWin := if stats.largestWin < payout then payout else stats.largestWin }
          let st3 := if !preserveCredits then st2.addWinnings payout else st2
          simLoop cfg reels rng preserveCredits n st3 gen.2 stats1
        else
          simLoop cfg reels rng preserveCredits n st2 gen.2 stats
      else
        let gen := ReelController.generateLosingPositions rng (k + 1) cfg.paylines cfg.payoutTable reels
        simLoop cfg reels rng preserveCredits n st2 gen.2 stats

/-- The engine's `simulate`: remember the credits and the spinning flag,
run the loop, then restore the credits when `preserveCredits` was
requested and always restore the spinning flag.  The returned aggregate
numbers (win rate, RTP and so on) are plain arithmetic over the
accumulated statistics and are not needed by the claims below. -/
def simulate (cfg : EngineConfig) (reels : List ReelStrip) (rng : ℕ → ℚ)
    (spinCount : ℕ) (preserveCredits : Bool) (st : GameState) (k : ℕ) :
    GameState × ℕ × SimStats :=
  let originalCredits := st.credits
  let originalIsSpinning := st.isSpinning
  let run := simLoop cfg reels rng preserveCredits spinCount st k
    { totalWins := 0, totalPaidOut := 0, payoutDistribution := [], largestWin := 0 }
  let st1 := run.1
  let st2 := if preserveCredits then { st1 with credits := originalCredits } else st1
  ({ st2 with isSpinning := originalIsSpinning }, run.2.1, run.2.2)

end SlotEngine

/-!
A small reference/heap model of the host's aliasing semantics, needed
only for the snapshot claim: arrays live in a heap addressed by natural
numbers, object fields of array type hold references, an object spread
copies the field values (that is, the references) and an array copy
allocates a fresh cell.
-/

/-- The heap: grid arrays and hit-line arrays addressed by naturals, and
the next fresh address. -/
structure Heap where
  arrays : ℕ → SymMatrix
  hitArrays : ℕ → List HitLine
  fresh : ℕ

/-- Overwrite the grid array stored at one address (an in-place array
mutation by whoever holds a reference to it). -/
def Heap.writeArray (h : Heap) (r : ℕ) (v : SymMatrix) : Heap :=
  { h with arrays := fun i => if i = r then v else h.arrays i }

/-- Allocate a fresh grid array holding the given value. -/
def Heap.allocArray (h : Heap) (v : SymMatrix) : ℕ × Heap :=
  (h.fresh, { (h.writeArray h.fresh v) with fresh := h.fresh + 1 })

/-- A spin result as stored on the heap: the matrix and the hit-line
list are references into the heap, the scalars are inline. -/
structure HSpinResult where
  matrixRef : ℕ
  win : Bool
  payout : ℚ
  hitLinesRef : ℕ
deriving Repr, DecidableEq

/-- The game state with its array-valued fields held by reference. -/
structure HGameState where
  credits : ℚ
  lastWin : ℚ
  isSpinning : Bool
  visibleGridRef : ℕ
  lastSpinResult : Option HSpinResult
  totalSpins : ℕ
  totalWins : ℕ
  totalPaidOut : ℚ

/-- The source's `getSnapshot`, line by line: construct a fresh
`GameState` (its constructor allocates an empty 3-by-5 grid), replace
its visible grid by a freshly allocated copy of the current grid's
value, and set `lastSpinResult` to a *shallow spread* of the current
spin result: a new object whose `matrix` and `hitLines` fields carry the
same references as the engine's own. -/
def HGameState.getSnapshot (st : HGameState) (h : Heap) : HGameState × Heap :=
  let g0 := h.allocArray (List.replicate 3 (List.replicate 5 ""))
  let g1 := g0.2.allocArray (g0.2.arrays st.visibleGridRef)
  ({ credits := st.credits
     lastWin := st.lastWin
     isSpinning := st.isSpinning
     visibleGridRef := g1.1
     lastSpinResult := st.lastSpinResult.map (fun r =>
       { matrixRef := r.matrixRef, win := r.win, payout := r.payout,
         hitLinesRef := r.hitLinesRef })
     totalSpins := st.totalSpins
     totalWins := st.totalWins
     totalPaidOut := st.totalPaidOut }, g1.2)

/-!
Specification-side notions used to state the claims (derived from the
wording of the specification, not from the source).
-/

/-- The (row, col) pairs of a flat payline list. -/
def pairsOf : List ℕ → List (ℕ × ℕ)
  | r :: c :: rest => (r, c) :: pairsOf rest
  | _ => []

/-- A well-formed 3-by-5 grid. -/
def wellFormedGrid (m : SymMatrix) : Prop :=
  m.length = 3 ∧ ∀ row ∈ m, row.length = 5

/-- A well-formed payline: exactly 5 (row, col) coordinates with row in
0..2 and col in 0..4, stored flat. -/
def wellFormedPayline (pl : List ℕ) : Prop :=
  pl.length = 10 ∧ ∀ p ∈ pairsOf pl, p.1 < 3 ∧ p.2 < 5

/-- The 5 symbols of a grid along a payline, in column order. -/
def lineSymbols (m : SymMatrix) (pl : List ℕ) : List SymId :=
  (pairsOf pl).map (fun p => (PaylineEvaluator.getCell m p.1 p.2).getD "")

/-- The specification's matching relation: the pattern has exactly 5
tokens which agree with the line's 5 symbols position by position, the
star token acting as a wildcard. -/
def specLineMatches (syms : List SymId) (pattern : String) : Prop :=
  (splitPattern pattern).length = 5 ∧ syms.length = 5 ∧
    ∀ i < 5, (splitPattern pattern).getD i "" = "*" ∨
      (splitPattern pattern).getD i "" = syms.getD i ""

/-- The j-th attempt of the bounded losing-position search as the
specification describes it: one uniform stop position per reel, each
consuming one RNG draw, attempt j reading draws 5j .. 5j+4 past the
cursor. -/
def specAttempt (rng : ℕ → ℚ) (k : ℕ) (reels : List ReelStrip) (j : ℕ) : List ℕ :=
  reels.enum.map (fun p => floorScale (rng (k + 5 * j + p.1)) p.2.length)

/-- A position vector whose derived grid does not win. -/
def attemptIsLosing (paylines : List (List ℕ)) (payoutTable : List (String × ℚ))
    (reels : List ReelStrip) (a : List ℕ) : Prop :=
  PaylineEvaluator.hasWin paylines payoutTable
    (ReelController.positionsToMatrix reels a) = false

/-!
Concrete configurations used by the counterexamples and witnesses.
All of them pass the constructor validation of the source (win
probability in [0,1], positive bet, a non-empty payline array, a
non-empty payout table, and exactly 5 non-empty reel strips).
-/

/-- The all-zeros RNG stream (a legal value sequence: every draw lies in
[0, 1)). -/
def rngZero : ℕ → ℚ := fun _ => 0

/-- The middle-row payline, alone. -/
def plMid : List (List ℕ) := [[1, 0, 1, 1, 1, 2, 1, 3, 1, 4]]

/-- The top-row payline, alone. -/
def plTop : List (List ℕ) := [[0, 0, 0, 1, 0, 2, 0, 3, 0, 4]]

/-- Five identical two-symbol strips with A on top of C. -/
def reelsAC : List ReelStrip := List.replicate 5 ["A", "C"]

/-- Five identical two-symbol strips with A on top of B. -/
def reelsAB : List ReelStrip := List.replicate 5 ["A", "B"]

/-- Five identical three-symbol strips. -/
def reelsABC : List ReelStrip := List.replicate 5 ["A", "B", "C"]

/-- A payout table with the single five-A pattern at multiplier 7. -/
def tblA7 : List (String × ℚ) := [("A-A-A-A-A", 7)]

/-- A payout table with the single five-A pattern at multiplier 10. -/
def tblA10 : List (String × ℚ) := [("A-A-A-A-A", 10)]

/-- A payout table with the single five-B pattern at multiplier 5. -/
def tblB5 : List (String × ℚ) := [("B-B-B-B-B", 5)]

/-- Configuration with certain win, middle payline, five-A pattern. -/
def cfgMidA : EngineConfig :=
  { winningChance := 1, betAmount := 10, paylines := plMid, payoutTable := tblA10 }

/-!
Helper lemmas.
-/

/-- The Mulberry32 output numerator is always below the 32-bit modulus. -/
lemma mulberry32Num_lt (seed1 : ℕ) : mulberry32Num seed1 < U32 := by
  unfold mulberry32Num
  exact Nat.mod_lt _ (by norm_num [U32])

/-- The zero stream is constantly zero. -/
lemma rngZero_apply (k : ℕ) : rngZero k = 0 := rfl

/-- Scaling zero always floors to position zero. -/
lemma floorScale_zero (n : ℕ) : floorScale 0 n = 0 := by
  simp [floorScale]

/-- In range and nonnegative inputs give in-range positions: with a draw
in [0, 1) and a non-empty strip, the scaled floor is a valid index. -/
lemma floorScale_lt (r : ℚ) (n : ℕ) (h0 : 0 ≤ r) (h1 : r < 1) (hn : 0 < n) :
    floorScale r n < n := by
  unfold floorScale
  have hlt : r * (n : ℚ) < (n : ℚ) := by
    have hnq : (0 : ℚ) < (n : ℚ) := by exact_mod_cast hn
    calc r * (n : ℚ) < 1 * (n : ℚ) := by
          exact mul_lt_mul_of_pos_right h1 hnq
      _ = (n : ℚ) := one_mul _
  have hfl : Int.floor (r * (n : ℚ)) < (n : ℤ) := by
    apply Int.floor_lt.mpr
    push_cast
    exact hlt
  have hge : 0 ≤ Int.floor (r * (n : ℚ)) := by
    apply Int.floor_nonneg.mpr
    positivity
  omega

/-!
Claim C7: the seeded RandomSource is a pure deterministic function of
the seed and the call count, with every value in [0, 1).
-/

/-- C7.  Two independently constructed `SeededRandom` instances whose
32-bit seeds agree return equal values on their n-th call (the
construction masks the seed to 32 bits, and each draw is a pure function
of the stored seed), and every returned value lies in [0, 1). -/
theorem seededRandom_deterministic_in_range :
    (∀ s1 s2 n, s1 % U32 = s2 % U32 →
      (SeededRandom.make s1).draw n = (SeededRandom.make s2).draw n) ∧
    (∀ s n, 0 ≤ (SeededRandom.make s).draw n ∧ (SeededRandom.make s).draw n < 1) := by
  have key : ∀ n (r : SeededRandom), 0 ≤ r.draw n ∧ r.draw n < 1 := by
    intro n
    induction n with
    | zero =>
      intro r
      unfold SeededRandom.draw SeededRandom.next
      constructor
      · positivity
      · apply (div_lt_one (by norm_num [U32] : (0 : ℚ) < (U32 : ℚ))).mpr
        exact_mod_cast mulberry32Num_lt (r.seed + 1831565813)
    | succ n ih =>
      intro r
      unfold SeededRandom.draw
      exact ih _
  refine ⟨fun s1 s2 n h => ?_, fun s n => key n _⟩
  unfold SeededRandom.make
  rw [h]

/-- Witness for C7 at seed 12345 and call index 0. -/
theorem seededRandom_deterministic_in_range_witness :
    (SeededRandom.make 12345).draw 0 = (SeededRandom.make 12345).draw 0 ∧
    0 ≤ (SeededRandom.make 12345).draw 0 ∧ (SeededRandom.make 12345).draw 0 < 1 :=
  ⟨seededRandom_deterministic_in_range.1 12345 12345 0 rfl,
   seededRandom_deterministic_in_range.2 12345 0⟩

/-!
Claim C5: spin precondition failures and the error path of the
spinning flag.
-/

/-- C5.  A `spin` requested while a spin is in flight fails with the
state error and leaves the whole state unchanged; a `spin` with credits
below the bet amount fails with the insufficient-credits error and
leaves the whole state unchanged; and whenever a `spin` that passed its
preconditions propagates an error (from whatever its execution body did),
the propagated state has the spinning flag cleared, so the engine does
not stay stuck spinning. -/
theorem spin_error_handling :
    (∀ (α : Type) (exec : GameState → Except (SpinError × GameState) α)
        (cfg : EngineConfig) (st : GameState), st.isSpinning = true →
      SlotEngine.spinWith exec cfg st = Except.error (SpinError.stateError, st)) ∧
    (∀ (α : Type) (exec : GameState → Except (SpinError × GameState) α)
        (cfg : EngineConfig) (st : GameState), st.isSpinning = false →
      st.credits < cfg.betAmount →
      SlotEngine.spinWith exec cfg st =
        Except.error (SpinError.insufficientCredits, st)) ∧
    (∀ (α : Type) (exec : GameState → Except (SpinError × GameState) α)
        (cfg : EngineConfig) (st : GameState) (e : SpinError) (st1 : GameState),
      st.isSpinning = false →
      SlotEngine.spinWith exec cfg st = Except.error (e, st1) →
      st1.isSpinning = false) := by
  refine ⟨?_, ?_, ?_⟩
  · intro α exec cfg st h
    simp [SlotEngine.spinWith, h]
  · intro α exec cfg st hflag hcred
    have hc : st.hasCredits cfg.betAmount = false := by
      simp [GameState.hasCredits]
      exact hcred
    simp [SlotEngine.spinWith, hflag, hc]
  · intro α exec cfg st e st1 hflag herr
    by_cases hc : st.hasCredits cfg.betAmount = true
    · simp only [SlotEngine.spinWith, hflag, hc] at herr
      simp at herr
      cases hx : exec { st with isSpinning := true } with
      | ok r => rw [hx] at herr; simp at herr
      | error e2 =>
        rw [hx] at herr
        simp at herr
        rw [← herr.2]
    · simp only [SlotEngine.spinWith, hflag] at herr
      rw [Bool.not_eq_true] at hc
      simp [hc] at herr
      rw [← herr.2, hflag]

/-- A state mid-spin, used by the claim witnesses. -/
def stSpinning : GameState :=
  { GameState.init 1000 with isSpinning := true }

/-- A state with too few credits for the bet, used by the witnesses. -/
def stPoor : GameState :=
  { GameState.init 1000 with credits := 5 }

/-- An execution body that throws immediately, for the witness of the
error-path conjunct. -/
def execThrow : GameState → Except (SpinError × GameState) (SpinResult × GameState × ℕ) :=
  fun s => Except.error (SpinError.internalError, s)

/-- Witness for C5: concrete runs of the three error cases. -/
theorem spin_error_handling_witness :
    (SlotEngine.spinWith (fun s =>
        Except.ok (SlotEngine.executeSpin cfgMidA reelsAB rngZero s 0))
      cfgMidA stSpinning = Except.error (SpinError.stateError, stSpinning)) ∧
    (SlotEngine.spinWith (fun s =>
        Except.ok (SlotEngine.executeSpin cfgMidA reelsAB rngZero s 0))
      cfgMidA stPoor = Except.error (SpinError.insufficientCredits, stPoor)) ∧
    ((GameState.init 1000).isSpinning = false) := by
  have herr : SlotEngine.spinWith execThrow cfgMidA (GameState.init 1000) =
      Except.error (SpinError.internalError, GameState.init 1000) := by
    norm_num [SlotEngine.spinWith, execThrow, GameState.hasCredits,
      GameState.init, cfgMidA]
  refine ⟨?_, ?_, ?_⟩
  · exact spin_error_handling.1 _ _ cfgMidA stSpinning rfl
  · exact spin_error_handling.2.1 _ _ cfgMidA stPoor rfl
      (by norm_num [stPoor, GameState.init, cfgMidA])
  · exact spin_error_handling.2.2 _ execThrow cfgMidA (GameState.init 1000)
      SpinError.internalError (GameState.init 1000) rfl herr

/-!
Claims C6 and C10: frame effects of simulate with preserved credits.
-/

/-- Under preserved credits the simulation loop runs all its iterations,
adds one recorded spin per iteration, and never touches the win
counters, the paid-out counter, the credits, or the spinning flag of the
game state. -/
lemma simLoop_preserve_effects (cfg : EngineConfig) (reels : List ReelStrip)
    (rng : ℕ → ℚ) : ∀ (n : ℕ) (st : GameState) (k : ℕ) (stats : SlotEngine.SimStats),
    (SlotEngine.simLoop cfg reels rng true n st k stats).1.totalSpins
        = st.totalSpins + n ∧
    (SlotEngine.simLoop cfg reels rng true n st k stats).1.totalWins
        = st.totalWins ∧
    (SlotEngine.simLoop cfg reels rng true n st k stats).1.totalPaidOut
        = st.totalPaidOut ∧
    (SlotEngine.simLoop cfg reels rng true n st k stats).1.credits
        = st.credits ∧
    (SlotEngine.simLoop cfg reels rng true n st k stats).1.isSpinning
        = st.isSpinning := by
  intro n
  induction n with
  | zero =>
    intro st k stats
    simp [SlotEngine.simLoop]
  | succ n ih =>
    intro st k stats
    by_cases h : rng k < cfg.winningChance <;>
      simp only [SlotEngine.simLoop, Bool.not_true, Bool.false_and,
        Bool.false_eq_true, if_false, h, if_true]
    · split <;>
        (simp only [ih, GameState.recordSpin]
         exact ⟨by omega, trivial, trivial, trivial, trivial⟩)
    · simp only [ih, GameState.recordSpin]
      exact ⟨by omega, trivial, trivial, trivial, trivial⟩

/-- C6.  For every spin count and every RNG stream, simulate with
preserved credits returns the engine state with the credit balance and
the spinning flag equal to their values before the call. -/
theorem simulate_preserves_credits_and_flag (cfg : EngineConfig)
    (reels : List ReelStrip) (rng : ℕ → ℚ) (n : ℕ) (st : GameState) (k : ℕ) :
    (SlotEngine.simulate cfg reels rng n true st k).1.credits = st.credits ∧
    (SlotEngine.simulate cfg reels rng n true st k).1.isSpinning = st.isSpinning := by
  simp [SlotEngine.simulate]

/-- C10.  For every spin count, simulate with preserved credits still
advances the cumulative total-spin counter of the game state by the spin
count (one recorded spin per loop iteration; the early exit on exhausted
credits is disabled when credits are preserved), while the total-win and
total-paid-out counters are left unchanged, winnings never being applied
to the game state in this mode. -/
theorem simulate_preserve_counters (cfg : EngineConfig)
    (reels : List ReelStrip) (rng : ℕ → ℚ) (n : ℕ) (st : GameState) (k : ℕ) :
    (SlotEngine.simulate cfg reels rng n true st k).1.totalSpins
        = st.totalSpins + n ∧
    (SlotEngine.simulate cfg reels rng n true st k).1.totalWins = st.totalWins ∧
    (SlotEngine.simulate cfg reels rng n true st k).1.totalPaidOut
        = st.totalPaidOut := by
  have h := simLoop_preserve_effects cfg reels rng n st k
    { totalWins := 0, totalPaidOut := 0, payoutDistribution := [], largestWin := 0 }
  simp only [SlotEngine.simulate]
  exact ⟨h.1, h.2.1, h.2.2.1⟩

/-!
Claim C4: structure and effects of one spin execution.
-/

/-- C4 (amended).  Every spin first deducts the bet from the credits and
records the spin, then consumes exactly one RandomSource draw (the one
at the cursor) and takes the winning-generation branch exactly when that
draw is below the configured win probability, all generator draws coming
strictly after it; the spin's reported result is the evaluation of the
grid derived from the chosen branch's positions; on an evaluated win the
credits grow by payout times bet amount and the win counters advance,
otherwise only the bet deduction remains; the total spin counter always
advances by one. -/
theorem executeSpin_effects (cfg : EngineConfig) (reels : List ReelStrip)
    (rng : ℕ → ℚ) (st : GameState) (k : ℕ) :
    ((SlotEngine.executeSpin cfg reels rng st k).1 =
      PaylineEvaluator.evaluate cfg.paylines cfg.payoutTable
        (ReelController.positionsToMatrix reels
          (if rng k < cfg.winningChance then
            (ReelController.generateWinningPositions rng (k + 1)
              cfg.payoutTable reels).1
          else
            (ReelController.generateLosingPositions rng (k + 1) cfg.paylines
              cfg.payoutTable reels).1))) ∧
    ((SlotEngine.executeSpin cfg reels rng st k).2.1.credits =
      st.credits - cfg.betAmount +
        (if (SlotEngine.executeSpin cfg reels rng st k).1.win then
          (SlotEngine.executeSpin cfg reels rng st k).1.payout * cfg.betAmount
        else 0)) ∧
    ((SlotEngine.executeSpin cfg reels rng st k).2.1.totalSpins
        = st.totalSpins + 1) ∧
    ((SlotEngine.executeSpin cfg reels rng st k).2.1.totalWins =
      st.totalWins +
        (if (SlotEngine.executeSpin cfg reels rng st k).1.win then 1 else 0)) ∧
    ((SlotEngine.executeSpin cfg reels rng st k).2.1.totalPaidOut =
      st.totalPaidOut +
        (if (SlotEngine.executeSpin cfg reels rng st k).1.win then
          (SlotEngine.executeSpin cfg reels rng st k).1.payout * cfg.betAmount
        else 0)) := by
  by_cases h : rng k < cfg.winningChance <;>
    simp only [SlotEngine.executeSpin, if_pos, if_neg, h, if_true, if_false,
      GameState.placeBet, GameState.recordSpin, GameState.updateGrid,
      GameState.addWinnings] <;>
  · split <;> simp

/-- Zero-stream draws always floor to position zero. -/
lemma floorScale_rngZero (k n : ℕ) : floorScale (rngZero k) n = 0 := by
  rw [rngZero_apply]; exact floorScale_zero n

/-- C4 (counterexample).  A concrete valid configuration (win
probability 1, the single middle-row payline, the single pattern
A-A-A-A-A at multiplier 10, and five validator-accepted strips A,B) on
which the spin's Bernoulli draw is below the win probability and yet the
spin does not win: the winning-position generator places its symbols at
the raw stop index (the top row) and never checks the configured payline
rows, so the evaluated grid loses and the credits keep only the bet
deduction. -/
theorem spin_win_not_bernoulli_draw :
    rngZero 0 < cfgMidA.winningChance ∧
    (SlotEngine.executeSpin cfgMidA reelsAB rngZero (GameState.init 1000) 0).1.win
      = false ∧
    (SlotEngine.executeSpin cfgMidA reelsAB rngZero (GameState.init 1000) 0).2.1.credits
      = 990 := by
  have h5 : List.range 5 = [0, 1, 2, 3, 4] := by decide
  have h2 : List.range 2 = [0, 1] := by decide
  have hsplit : splitPattern "A-A-A-A-A" = ["A", "A", "A", "A", "A"] := by decide
  have hsel : ReelController.selectWeightedPattern rngZero 1 cfgMidA.payoutTable
      = (("A-A-A-A-A", 10), 2) := by
    norm_num [ReelController.selectWeightedPattern, ReelController.walkWeights,
      cfgMidA, tblA10, rngZero]
  have hcw : ReelController.createWinningMatrix rngZero 2 reelsAB "A-A-A-A-A"
      = ([0, 0, 0, 0, 0], 7) := by
    norm_num [ReelController.createWinningMatrix, ReelController.createWinningGo,
      floorScale_rngZero, h5, h2, reelsAB, hsplit]
  have hgen : ReelController.generateWinningPositions rngZero 1
      cfgMidA.payoutTable reelsAB = ([0, 0, 0, 0, 0], 7) := by
    rw [ReelController.generateWinningPositions, hsel]
    exact hcw
  have hbr : rngZero 0 < cfgMidA.winningChance := by
    norm_num [rngZero, cfgMidA]
  have hwin : (PaylineEvaluator.evaluate cfgMidA.paylines cfgMidA.payoutTable
      (ReelController.positionsToMatrix reelsAB [0, 0, 0, 0, 0])).win = false := by
    decide
  refine ⟨hbr, ?_, ?_⟩
  · simp only [SlotEngine.executeSpin, if_pos hbr, hgen, GameState.placeBet,
      GameState.recordSpin, GameState.updateGrid, GameState.addWinnings]
    rw [hwin]
  · simp only [SlotEngine.executeSpin, if_pos hbr, hgen, GameState.placeBet,
      GameState.recordSpin, GameState.updateGrid, GameState.addWinnings]
    rw [hwin]
    norm_num [GameState.init, cfgMidA]

/-- C1 (evaluation at the failing input).  On the same kind of valid
configuration (middle-row payline only, single full pattern A-A-A-A-A at
multiplier 7, strips A,C), the positions returned by
`generateWinningPositions` derive a grid that the payline evaluator
scores as a loss: the generator satisfies no win postcondition. -/
theorem winning_positions_can_lose :
    ReelController.generateWinningPositions rngZero 0 tblA7 reelsAC
      = ([0, 0, 0, 0, 0], 6) ∧
    (PaylineEvaluator.evaluate plMid tblA7
      (ReelController.positionsToMatrix reelsAC [0, 0, 0, 0, 0])).win = false := by
  have h5 : List.range 5 = [0, 1, 2, 3, 4] := by decide
  have h2 : List.range 2 = [0, 1] := by decide
  have hsplit : splitPattern "A-A-A-A-A" = ["A", "A", "A", "A", "A"] := by decide
  have hsel : ReelController.selectWeightedPattern rngZero 0 tblA7
      = (("A-A-A-A-A", 7), 1) := by
    norm_num [ReelController.selectWeightedPattern, ReelController.walkWeights,
      tblA7, rngZero]
  have hcw : ReelController.createWinningMatrix rngZero 1 reelsAC "A-A-A-A-A"
      = ([0, 0, 0, 0, 0], 6) := by
    norm_num [ReelController.createWinningMatrix, ReelController.createWinningGo,
      floorScale_rngZero, h5, h2, reelsAC, hsplit]
  refine ⟨?_, by decide⟩
  rw [ReelController.generateWinningPositions, hsel]
  exact hcw

/-- C2 (evaluation at the failing input).  For the same stop positions
the grid the reel controller derives (used by `spin`) and the grid the
engine's own conversion derives (used by `simulate`) are different:
the former is the documented 3-row, 5-column matrix of the windows
p, p+1, p+2, the latter is five 3-symbol lists centered on p; on the
top-row payline with pattern A-A-A-A-A one wins and the other loses. -/
theorem spin_and_simulate_grids_differ :
    ReelController.positionsToMatrix reelsABC [0, 0, 0, 0, 0]
      ≠ SlotEngine.positionsToMatrix reelsABC [0, 0, 0, 0, 0] ∧
    ReelController.positionsToMatrix reelsABC [0, 0, 0, 0, 0]
      = [["A", "A", "A", "A", "A"], ["B", "B", "B", "B", "B"],
         ["C", "C", "C", "C", "C"]] ∧
    SlotEngine.positionsToMatrix reelsABC [0, 0, 0, 0, 0]
      = List.replicate 5 ["C", "A", "B"] ∧
    (PaylineEvaluator.evaluate plTop tblA10
      (ReelController.positionsToMatrix reelsABC [0, 0, 0, 0, 0])).win = true ∧
    (PaylineEvaluator.evaluate plTop tblA10
      (SlotEngine.positionsToMatrix reelsABC [0, 0, 0, 0, 0])).win = false := by
  refine ⟨by decide, by decide, by decide, by decide, by decide⟩

/-!
Claim C9: the state snapshot and its shared sub-arrays.
-/

/-- A concrete engine grid value. -/
def gridAllA : SymMatrix := List.replicate 3 (List.replicate 5 "A")

/-- A value a caller writes into the snapshot's matrix. -/
def gridMut : SymMatrix := [["MUTATED"]]

/-- A concrete heap: address 0 holds the last spin's matrix, address 1
its hit-line list, address 2 the visible grid. -/
def heap0 : Heap :=
  { arrays := fun i => if i = 0 then gridAllA else []
    hitArrays := fun _ => []
    fresh := 3 }

/-- A concrete engine state after a winning spin, whose last spin result
references the heap cells above. -/
def stSnap : HGameState :=
  { credits := 990
    lastWin := 50
    isSpinning := false
    visibleGridRef := 2
    lastSpinResult := some { matrixRef := 0, win := true, payout := 5, hitLinesRef := 1 }
    totalSpins := 1
    totalWins := 1
    totalPaidOut := 50 }

/-- C9 (evaluation at the failing input).  The snapshot `getSnapshot`
returns holds the *same* heap reference for the nested last-spin-result
matrix as the engine's own state (the source spreads the record
shallowly), so writing through the snapshot's matrix reference changes
the array the engine's state dereferences — the snapshot is not a deep
defensive copy.  The visible grid, in contrast, is copied into a fresh
cell. -/
theorem getSnapshot_shares_lastSpinResult_arrays :
    ((stSnap.getSnapshot heap0).1.lastSpinResult.map HSpinResult.matrixRef = some 0 ∧
     stSnap.lastSpinResult.map HSpinResult.matrixRef = some 0) ∧
    (((stSnap.getSnapshot heap0).2.writeArray 0 gridMut).arrays 0 = gridMut ∧
     gridMut ≠ gridAllA ∧
     heap0.arrays 0 = gridAllA) ∧
    (stSnap.getSnapshot heap0).1.visibleGridRef ≠ stSnap.visibleGridRef := by
  refine ⟨⟨rfl, rfl⟩, ⟨?_, by decide, rfl⟩, ?_⟩
  · simp [HGameState.getSnapshot, Heap.writeArray, Heap.allocArray]
  · simp [HGameState.getSnapshot, Heap.allocArray, heap0, stSnap]

/-!
Claim C8: the losing-position search.
-/

/-- Shifting the start index of an enumeration into the mapped
function. -/
lemma enumFrom_map_shift {α β : Type} (f : ℕ × α → β) :
    ∀ (l : List α) (n : ℕ),
      (l.enumFrom (n + 1)).map f = (l.enumFrom n).map (fun p => f (p.1 + 1, p.2)) := by
  intro l
  induction l with
  | nil => intro n; rfl
  | cons a l ih =>
    intro n
    rw [List.enumFrom_cons, List.enumFrom_cons, List.map_cons, List.map_cons, ih]

/-- A mapped enumeration is pointwise related to the underlying list
when the mapped value is related to the element at every index. -/
lemma forall2_enumFrom_map {α β : Type} (P : β → α → Prop) (f : ℕ × α → β) :
    ∀ (l : List α) (n : ℕ), (∀ i a, a ∈ l → P (f (i, a)) a) →
      List.Forall₂ P ((l.enumFrom n).map f) l := by
  intro l
  induction l with
  | nil => intro n _; simp
  | cons a l ih =>
    intro n h
    rw [List.enumFrom_cons, List.map_cons]
    exact List.Forall₂.cons (h n a (List.mem_cons_self a l))
      (ih (n + 1) (fun i b hb => h i b (List.mem_cons_of_mem a hb)))

/-- One attempt of the search draws exactly one position per reel, in
reel order, consuming one draw per reel: it equals the specification's
attempt 0 at the same cursor, and advances the cursor by the reel
count. -/
lemma drawPositions_eq_specAttempt (rng : ℕ → ℚ) :
    ∀ (reels : List ReelStrip) (k : ℕ),
      ReelController.drawPositions rng k reels
        = (specAttempt rng k reels 0, k + reels.length) := by
  have main : ∀ (reels : List ReelStrip) (k : ℕ),
      ReelController.drawPositions rng k reels
        = ((reels.enumFrom 0).map (fun p => floorScale (rng (k + p.1)) p.2.length),
           k + reels.length) := by
    intro reels
    induction reels with
    | nil => intro k; simp [ReelController.drawPositions]
    | cons r rest ih =>
      intro k
      rw [ReelController.drawPositions, ih (k + 1), List.enumFrom_cons, List.map_cons,
        enumFrom_map_shift]
      refine Prod.ext ?_ (by simp [List.length_cons]; omega)
      simp only [Nat.add_zero]
      refine List.cons_eq_cons.mpr ⟨rfl, List.map_congr_left (fun p _ => ?_)⟩
      have : k + 1 + p.1 = k + (p.1 + 1) := by omega
      rw [this]
  intro reels k
  rw [main reels k]
  refine Prod.ext ?_ rfl
  unfold specAttempt
  rw [List.enum]
  exact List.map_congr_left (fun p _ => by
    have : k + 5 * 0 + p.1 = k + p.1 := by omega
    rw [this])

/-- Moving the cursor five draws ahead moves to the next specification
attempt. -/
lemma specAttempt_succ (rng : ℕ → ℚ) (k : ℕ) (reels : List ReelStrip) (j : ℕ) :
    specAttempt rng (k + 5) reels j = specAttempt rng k reels (j + 1) := by
  unfold specAttempt
  exact List.map_congr_left (fun p _ => by
    have : k + 5 + 5 * j + p.1 = k + 5 * (j + 1) + p.1 := by ring
    rw [this])

/-- When every attempt within the fuel bound wins, the bounded search
exhausts and falls back to the deterministic construction, having
consumed five draws per attempt. -/
lemma losingLoop_exhaust (rng : ℕ → ℚ) (paylines : List (List ℕ))
    (tbl : List (String × ℚ)) (reels : List ReelStrip) (h5 : reels.length = 5) :
    ∀ (fuel k : ℕ),
      (∀ j < fuel, ¬ attemptIsLosing paylines tbl reels (specAttempt rng k reels j)) →
      ReelController.losingLoop rng paylines tbl reels fuel k
        = (ReelController.forceLosingPositions reels, k + 5 * fuel) := by
  intro fuel
  induction fuel with
  | zero => intro k _; simp [ReelController.losingLoop]
  | succ fuel ih =>
    intro k h
    have h0 := h 0 (Nat.succ_pos fuel)
    unfold attemptIsLosing at h0
    have hwin : PaylineEvaluator.hasWin paylines tbl
        (ReelController.positionsToMatrix reels (specAttempt rng k reels 0)) = true := by
      cases hx : PaylineEvaluator.hasWin paylines tbl
          (ReelController.positionsToMatrix reels (specAttempt rng k reels 0))
      · exact absurd hx h0
      · rfl
    rw [ReelController.losingLoop, drawPositions_eq_specAttempt, h5]
    simp only [hwin, if_true]
    have hrec := ih (k + 5) (fun j hj => by
      rw [specAttempt_succ]
      exact h (j + 1) (Nat.succ_lt_succ hj))
    rw [hrec]
    refine Prod.ext rfl ?_
    simp
    omega

/-- The bounded search returns the first losing attempt: if attempt j0
within the fuel bound loses and every earlier attempt wins, the loop
returns exactly attempt j0's positions. -/
lemma losingLoop_first (rng : ℕ → ℚ) (paylines : List (List ℕ))
    (tbl : List (String × ℚ)) (reels : List ReelStrip) (h5 : reels.length = 5) :
    ∀ (fuel k j0 : ℕ), j0 < fuel →
      attemptIsLosing paylines tbl reels (specAttempt rng k reels j0) →
      (∀ j < j0, ¬ attemptIsLosing paylines tbl reels (specAttempt rng k reels j)) →
      (ReelController.losingLoop rng paylines tbl reels fuel k).1
        = specAttempt rng k reels j0 := by
  intro fuel
  induction fuel with
  | zero => intro k j0 h; omega
  | succ fuel ih =>
    intro k j0 hj0 hlose hmin
    rw [ReelController.losingLoop, drawPositions_eq_specAttempt, h5]
    cases j0 with
    | zero =>
      unfold attemptIsLosing at hlose
      simp only [hlose, Bool.false_eq_true, if_false]
    | succ j1 =>
      have h0 := hmin 0 (Nat.succ_pos j1)
      unfold attemptIsLosing at h0
      have hwin : PaylineEvaluator.hasWin paylines tbl
          (ReelController.positionsToMatrix reels (specAttempt rng k reels 0)) = true := by
        cases hx : PaylineEvaluator.hasWin paylines tbl
            (ReelController.positionsToMatrix reels (specAttempt rng k reels 0))
        · exact absurd hx h0
        · rfl
      simp only [hwin, if_true]
      have := ih (k + 5) j1 (Nat.lt_of_succ_lt_succ hj0)
        (by rw [specAttempt_succ]; exact hlose)
        (fun j hj => by
          rw [specAttempt_succ]
          exact hmin (j + 1) (Nat.succ_lt_succ hj))
      rw [this, specAttempt_succ]

/-- Every specification attempt yields one valid stop position per reel
when the draws are in [0, 1) and the strips are non-empty. -/
lemma specAttempt_valid (rng : ℕ → ℚ) (k : ℕ) (reels : List ReelStrip) (j : ℕ)
    (hne : ∀ s ∈ reels, s ≠ []) (hr : ∀ n, 0 ≤ rng n ∧ rng n < 1) :
    List.Forall₂ (fun p strip => p < strip.length)
      (specAttempt rng k reels j) reels := by
  unfold specAttempt
  rw [List.enum]
  exact forall2_enumFrom_map _ _ reels 0 (fun i a ha =>
    floorScale_lt _ _ (hr _).1 (hr _).2 (List.length_pos.mpr (hne a ha)))

/-- The deterministic fallback also yields one valid stop position per
non-empty strip. -/
lemma forceLosing_valid (reels : List ReelStrip) (hne : ∀ s ∈ reels, s ≠ []) :
    List.Forall₂ (fun p strip => p < strip.length)
      (ReelController.forceLosingPositions reels) reels := by
  unfold ReelController.forceLosingPositions
  rw [List.enum]
  refine forall2_enumFrom_map _ _ reels 0 (fun i a ha => ?_)
  have hpos : 0 < a.length := List.length_pos.mpr (hne a ha)
  simp only
  cases hfind : (List.range a.length).find? (fun x =>
      !(decide (0 < i) && (stripAt a (x + 1) ==
        if i = 0 then a.getD 0 "" else "!DIFFERENT!"))) with
  | none => simpa using hpos
  | some x =>
    have hmem := List.mem_of_find?_eq_some hfind
    simpa using List.mem_range.mp hmem

/-- C8 (amended).  The losing-position generator is total and returns
exactly 5 positions, each a valid index into the corresponding reel's
strip; it makes at most `maxAttempts` attempts, each drawing one uniform
stop position per reel; it returns the first attempt whose derived grid
does not win; and when all attempts win it returns the deterministic
fallback construction (which picks, per reel, the first position whose
middle visible symbol differs from the reel's target sentinel — without
guaranteeing visible-symbol variety across reels). -/
theorem generateLosingPositions_spec (paylines : List (List ℕ))
    (tbl : List (String × ℚ)) (reels : List ReelStrip) (rng : ℕ → ℚ) (k : ℕ)
    (h5 : reels.length = 5) (hne : ∀ s ∈ reels, s ≠ [])
    (hr : ∀ n, 0 ≤ rng n ∧ rng n < 1) :
    ((ReelController.generateLosingPositions rng k paylines tbl reels).1.length = 5) ∧
    (List.Forall₂ (fun p strip => p < strip.length)
      (ReelController.generateLosingPositions rng k paylines tbl reels).1 reels) ∧
    (∀ j0 < ReelController.maxAttempts,
      attemptIsLosing paylines tbl reels (specAttempt rng k reels j0) →
      (∀ j < j0, ¬ attemptIsLosing paylines tbl reels (specAttempt rng k reels j)) →
      (ReelController.generateLosingPositions rng k paylines tbl reels).1
        = specAttempt rng k reels j0) ∧
    ((∀ j < ReelController.maxAttempts,
        ¬ attemptIsLosing paylines tbl reels (specAttempt rng k reels j)) →
      (ReelController.generateLosingPositions rng k paylines tbl reels).1
        = ReelController.forceLosingPositions reels) := by
  classical
  have hfirst : ∀ j0 < ReelController.maxAttempts,
      attemptIsLosing paylines tbl reels (specAttempt rng k reels j0) →
      (∀ j < j0, ¬ attemptIsLosing paylines tbl reels (specAttempt rng k reels j)) →
      (ReelController.generateLosingPositions rng k paylines tbl reels).1
        = specAttempt rng k reels j0 := by
    intro j0 h100 hlose hmin
    exact losingLoop_first rng paylines tbl reels h5 ReelController.maxAttempts k j0
      h100 hlose hmin
  have hexh : (∀ j < ReelController.maxAttempts,
      ¬ attemptIsLosing paylines tbl reels (specAttempt rng k reels j)) →
      (ReelController.generateLosingPositions rng k paylines tbl reels).1
        = ReelController.forceLosingPositions reels := by
    intro h
    unfold ReelController.generateLosingPositions
    rw [losingLoop_exhaust rng paylines tbl reels h5 ReelController.maxAttempts k h]
  have hvalid : List.Forall₂ (fun p strip => p < strip.length)
      (ReelController.generateLosingPositions rng k paylines tbl reels).1 reels := by
    by_cases hex : ∃ j, j < ReelController.maxAttempts ∧
        attemptIsLosing paylines tbl reels (specAttempt rng k reels j)
    · obtain ⟨hj100, hjlose⟩ := Nat.find_spec hex
      have hres := hfirst (Nat.find hex) hj100 hjlose (fun j hj => by
        intro hc
        exact (Nat.find_min hex hj) ⟨lt_trans hj hj100, hc⟩)
      rw [hres]
      exact specAttempt_valid rng k reels (Nat.find hex) hne hr
    · push_neg at hex
      have hres := hexh (fun j hj => hex j hj)
      rw [hres]
      exact forceLosing_valid reels hne
  exact ⟨hvalid.length_eq.trans h5, hvalid, hfirst, hexh⟩

/-- C8 (counterexample).  A concrete valid configuration — five strips
A,B, the middle payline, the single pattern B-B-B-B-B — and the legal
all-zeros draw stream on which every attempt of the bounded search wins,
so the search exhausts and returns the fallback; the fallback returns
position 0 for every reel (its per-reel target for reels after the
first is the sentinel string, which no strip symbol equals), so the
resulting middle row shows the same symbol on all five reels — no
visible-symbol variety is forced — and the returned grid even wins. -/
theorem losing_fallback_no_variety :
    ReelController.generateLosingPositions rngZero 0 plMid tblB5 reelsAB
      = ([0, 0, 0, 0, 0], 500) ∧
    ReelController.forceLosingPositions reelsAB = [0, 0, 0, 0, 0] ∧
    (ReelController.positionsToMatrix reelsAB [0, 0, 0, 0, 0]).getD 1 []
      = ["B", "B", "B", "B", "B"] ∧
    PaylineEvaluator.hasWin plMid tblB5
      (ReelController.positionsToMatrix reelsAB [0, 0, 0, 0, 0]) = true := by
  have hatt : ∀ j, specAttempt rngZero 0 reelsAB j = [0, 0, 0, 0, 0] := by
    intro j
    simp only [specAttempt, floorScale_rngZero]
    decide
  have hwin : PaylineEvaluator.hasWin plMid tblB5
      (ReelController.positionsToMatrix reelsAB [0, 0, 0, 0, 0]) = true := by decide
  have hall : ∀ j < ReelController.maxAttempts,
      ¬ attemptIsLosing plMid tblB5 reelsAB (specAttempt rngZero 0 reelsAB j) := by
    intro j _ hc
    unfold attemptIsLosing at hc
    rw [hatt j, hwin] at hc
    exact absurd hc (by simp)
  have h1 := losingLoop_exhaust rngZero plMid tblB5 reelsAB (by decide)
    ReelController.maxAttempts 0 hall
  refine ⟨?_, by decide, by decide, hwin⟩
  unfold ReelController.generateLosingPositions
  rw [h1]
  refine Prod.ext (by decide) (by decide)

/-- Witness for C8: the amended theorem applied to a concrete
configuration (strips A,B, middle payline, pattern A-A-A-A-A) whose very
first attempt on the all-zeros stream is losing. -/
theorem generateLosingPositions_spec_witness :
    (ReelController.generateLosingPositions rngZero 0 plMid tblA10 reelsAB).1.length
      = 5 ∧
    (ReelController.generateLosingPositions rngZero 0 plMid tblA10 reelsAB).1
      = specAttempt rngZero 0 reelsAB 0 := by
  have h := generateLosingPositions_spec plMid tblA10 reelsAB rngZero 0
    (by decide) (by decide) (fun n => by norm_num [rngZero])
  have hatt0 : specAttempt rngZero 0 reelsAB 0 = [0, 0, 0, 0, 0] := by
    simp only [specAttempt, floorScale_rngZero]
    decide
  refine ⟨h.1, h.2.2.1 0 (by decide) ?_ (fun j hj => absurd hj (Nat.not_lt_zero j))⟩
  unfold attemptIsLosing
  rw [hatt0]
  decide

/-!
Claim C3: characterization of the payline evaluator.
-/

/-- Searching with pointwise equal predicates finds the same entry. -/
lemma find?_congr_pred {α : Type} (p q : α → Bool) (h : ∀ a, p a = q a) :
    ∀ l : List α, l.find? p = l.find? q := by
  intro l
  induction l with
  | nil => rfl
  | cons a l ih => rw [List.find?_cons, List.find?_cons, h a, ih]

/-- The extracted payline symbols are exactly the grid cells at the
payline's coordinate pairs. -/
lemma extractLine_eq_pairs (m : SymMatrix) :
    ∀ pl, PaylineEvaluator.extractLine m pl
      = (pairsOf pl).map (fun p => ⟨PaylineEvaluator.getCell m p.1 p.2, p.1, p.2⟩)
  | [] => rfl
  | [_] => rfl
  | r :: c :: rest => by
    rw [PaylineEvaluator.extractLine, pairsOf, List.map_cons]
    exact congrArg _ (extractLine_eq_pairs m rest)

/-- A flat payline list yields half as many coordinate pairs. -/
lemma pairsOf_length : ∀ pl : List ℕ, (pairsOf pl).length = pl.length / 2
  | [] => by simp [pairsOf]
  | [x] => by simp [pairsOf]
  | a :: b :: rest => by
    rw [pairsOf, List.length_cons, pairsOf_length rest]
    simp only [List.length_cons]
    omega

/-- On a well-formed grid, every coordinate of a well-formed payline
reads an actual cell: the extracted symbol identifiers are the line's
symbols, each wrapped in `some`. -/
lemma symbolIds_eq (m : SymMatrix) (pl : List ℕ) (hm : wellFormedGrid m)
    (hpl : wellFormedPayline pl) :
    (PaylineEvaluator.extractLine m pl).map (fun s => s.symbolId)
      = (lineSymbols m pl).map some := by
  rw [extractLine_eq_pairs, List.map_map]
  unfold lineSymbols
  rw [List.map_map]
  apply List.map_congr_left
  intro p hp
  obtain ⟨hr, hc⟩ := hpl.2 p hp
  have h3 := hm.1
  have hrow : p.1 < m.length := by omega
  have hgetrow : m.getD p.1 [] = m.get ⟨p.1, hrow⟩ := List.getD_eq_getElem m [] hrow
  have hrowlen : (m.get ⟨p.1, hrow⟩).length = 5 :=
    hm.2 (m.get ⟨p.1, hrow⟩) (m.get_mem p.1 hrow)
  have hcell : PaylineEvaluator.getCell m p.1 p.2
      = some ((m.get ⟨p.1, hrow⟩).get ⟨p.2, by omega⟩) := by
    unfold PaylineEvaluator.getCell
    rw [hgetrow]
    exact List.get?_eq_get (by omega)
  simp only [Function.comp_apply, hcell, Option.getD_some]

/-- The per-position content of the pattern matcher, in index form. -/
lemma matches_all_iff (toks : List String) :
    ∀ (syms : List SymId) (n : ℕ), toks.length = n → syms.length = n →
    (((toks.zip (syms.map some)).all
        (fun pc => pc.1 == "*" || some pc.1 == pc.2)) = true ↔
      ∀ i < n, toks.getD i "" = "*" ∨ toks.getD i "" = syms.getD i "") := by
  induction toks with
  | nil =>
    intro syms n ht _
    subst ht
    simp
  | cons t toks ih =>
    intro syms n ht hs
    cases syms with
    | nil => rw [List.length_nil] at hs; rw [← hs] at ht; simp at ht
    | cons s syms =>
      cases n with
      | zero => simp at ht
      | succ n =>
        rw [List.map_cons, List.zip_cons_cons, List.all_cons, Bool.and_eq_true,
          ih syms n (by simpa using ht) (by simpa using hs)]
        constructor
        · rintro ⟨h1, h2⟩ i hi
          cases i with
          | zero =>
            simp only [List.getD_cons_zero]
            simpa using h1
          | succ i =>
            simp only [List.getD_cons_succ]
            exact h2 i (by omega)
        · intro h
          refine ⟨?_, fun i hi => ?_⟩
          · have := h 0 (Nat.succ_pos n)
            simp only [List.getD_cons_zero] at this
            simpa using this
          · have := h (i + 1) (by omega)
            simpa only [List.getD_cons_succ] using this

instance specLineMatches.decidable (syms : List SymId) (pattern : String) :
    Decidable (specLineMatches syms pattern) := by
  unfold specLineMatches
  infer_instance

instance wellFormedGrid.decidable (m : SymMatrix) :
    Decidable (wellFormedGrid m) := by
  unfold wellFormedGrid
  infer_instance

instance wellFormedPayline.decidable (pl : List ℕ) :
    Decidable (wellFormedPayline pl) := by
  unfold wellFormedPayline
  infer_instance

/-- Bridge between the source's boolean pattern matcher (applied to the
extracted optional symbols) and the specification's matching relation on
the line's five symbols. -/
lemma matchesPattern_eq_spec (syms : List SymId) (pattern : String)
    (h5 : syms.length = 5) :
    PaylineEvaluator.matchesPattern (syms.map some) pattern
      = decide (specLineMatches syms pattern) := by
  apply Bool.coe_iff_coe.mp
  rw [decide_eq_true_iff]
  unfold PaylineEvaluator.matchesPattern specLineMatches
  rw [Bool.and_eq_true, decide_eq_true_eq, List.length_map]
  constructor
  · rintro ⟨hlen, hall⟩
    have ht5 : (splitPattern pattern).length = 5 := by omega
    exact ⟨ht5, h5,
      (matches_all_iff (splitPattern pattern) syms 5 ht5 h5).mp hall⟩
  · rintro ⟨ht5, _, hidx⟩
    exact ⟨by omega,
      (matches_all_iff (splitPattern pattern) syms 5 ht5 h5).mpr hidx⟩

/-- For a well-formed grid and payline, checking the payline returns the
first payout-table entry, in table order, whose pattern stands in the
specification's matching relation to the line's symbols — at most one
hit line per payline. -/
lemma checkPayline_eq (tbl : List (String × ℚ)) (i : ℕ) (m : SymMatrix)
    (pl : List ℕ) (hm : wellFormedGrid m) (hpl : wellFormedPayline pl) :
    PaylineEvaluator.checkPayline tbl i (PaylineEvaluator.extractLine m pl)
      = (tbl.find? (fun e => decide (specLineMatches (lineSymbols m pl) e.1))).map
          (fun e => ⟨i, e.1, e.2,
            PaylineEvaluator.getMatchingSymbols
              (PaylineEvaluator.extractLine m pl) e.1⟩) := by
  simp only [PaylineEvaluator.checkPayline]
  have hlen5 : (lineSymbols m pl).length = 5 := by
    unfold lineSymbols
    rw [List.length_map, pairsOf_length, hpl.1]
  have hpred : ∀ e : String × ℚ,
      PaylineEvaluator.matchesPattern
          ((PaylineEvaluator.extractLine m pl).map (fun s => s.symbolId)) e.1
        = decide (specLineMatches (lineSymbols m pl) e.1) := by
    intro e
    rw [symbolIds_eq m pl hm hpl]
    exact matchesPattern_eq_spec _ _ hlen5
  rw [find?_congr_pred _ _ hpred tbl]
  cases tbl.find? (fun e => decide (specLineMatches (lineSymbols m pl) e.1)) with
  | none => rfl
  | some e => rfl

/-- Folding the multiplier sum from any start equals the start plus the
mapped sum. -/
lemma foldl_multiplier_sum : ∀ (l : List HitLine) (s : ℚ),
    l.foldl (fun a h => a + h.multiplier) s
      = s + (l.map (fun h => h.multiplier)).sum
  | [], s => by simp
  | h :: l, s => by
    rw [List.foldl_cons, foldl_multiplier_sum l, List.map_cons, List.sum_cons]
    ring

/-- C3.  For every well-formed 3-by-5 grid and well-formed paylines, the
evaluator returns win exactly when some line hit; the payout is the sum
of the multipliers of the hit lines; the hit lines are obtained by
giving each configured payline at most one hit — the first payout-table
entry, in table order, whose pattern matches the line's 5 symbols
position by position with the star wildcard and exact length 5 — and an
empty payline list never wins. -/
theorem evaluate_spec (paylines : List (List ℕ)) (tbl : List (String × ℚ))
    (m : SymMatrix) (hm : wellFormedGrid m)
    (hp : ∀ pl ∈ paylines, wellFormedPayline pl) :
    ((PaylineEvaluator.evaluate paylines tbl m).win = true ↔
      (PaylineEvaluator.evaluate paylines tbl m).hitLines ≠ []) ∧
    ((PaylineEvaluator.evaluate paylines tbl m).payout =
      ((PaylineEvaluator.evaluate paylines tbl m).hitLines.map
        (fun h => h.multiplier)).sum) ∧
    ((PaylineEvaluator.evaluate paylines tbl m).hitLines =
      paylines.enum.filterMap (fun p =>
        (tbl.find? (fun e =>
            decide (specLineMatches (lineSymbols m p.2) e.1))).map
          (fun e => ⟨p.1, e.1, e.2,
            PaylineEvaluator.getMatchingSymbols
              (PaylineEvaluator.extractLine m p.2) e.1⟩))) ∧
    (paylines = [] → (PaylineEvaluator.evaluate paylines tbl m).win = false) := by
  refine ⟨?_, ?_, ?_, ?_⟩
  · simp only [PaylineEvaluator.evaluate, decide_eq_true_eq]
    rw [List.length_pos]
  · simp only [PaylineEvaluator.evaluate]
    rw [foldl_multiplier_sum]
    ring
  · simp only [PaylineEvaluator.evaluate]
    apply List.filterMap_congr
    intro p hpmem
    exact checkPayline_eq tbl p.1 m p.2 hm (hp p.2 (List.snd_mem_of_mem_enum hpmem))
  · intro h
    subst h
    rfl

/-- Witness for C3: the theorem applied to the concrete grid of strips
A,B,C at stop positions 0 with the top and middle paylines and the
five-A table: exactly the top line hits. -/
theorem evaluate_spec_witness :
    ((PaylineEvaluator.evaluate (plTop ++ plMid) tblA10
        (ReelController.positionsToMatrix reelsABC [0, 0, 0, 0, 0])).win = true ↔
      (PaylineEvaluator.evaluate (plTop ++ plMid) tblA10
        (ReelController.positionsToMatrix reelsABC [0, 0, 0, 0, 0])).hitLines ≠ []) ∧
    ((PaylineEvaluator.evaluate (plTop ++ plMid) tblA10
        (ReelController.positionsToMatrix reelsABC [0, 0, 0, 0, 0])).win = true) := by
  refine ⟨(evaluate_spec (plTop ++ plMid) tblA10
      (ReelController.positionsToMatrix reelsABC [0, 0, 0, 0, 0])
      (by decide) (by decide)).1, by decide⟩
